import Mathlib

/-!
Verification development for the CarScan plate-detection and OCR pipeline
(`src/app/page.tsx`).  The numeric JavaScript code is shallowly embedded:
JavaScript numbers are modelled as exact rationals (`ℚ`) in the detector
pipeline, which contains no transcendental operations except the logistic
sigmoid (kept as an explicit function parameter, see `parseDetectorOutput`),
and as reals (`ℝ`) in the OCR decoder, whose softmax confidence uses
`Math.exp` (modelled by `Real.exp`).  Flat tensor buffers (`Float32Array`)
are modelled as total functions `ℕ → ℚ` / `ℕ → ℝ`; an index that the source
would read out of bounds (yielding `undefined`/`NaN` in JavaScript) reads an
unconstrained value in the model.
-/

namespace CarScan

/-! ## Plate text extraction (`extractPlate`, `normalizePlate`, page.tsx 137-138, 406-419) -/

/-- Character class `[A-Z0-9]` used by `extractPlate`'s regexes. -/
def isPlateChar (c : Char) : Bool :=
  (decide ('A' ≤ c) && decide (c ≤ 'Z')) || (decide ('0' ≤ c) && decide (c ≤ '9'))

/-- Character class `[A-Z]`. -/
def isUpperLetter (c : Char) : Bool :=
  decide ('A' ≤ c) && decide (c ≤ 'Z')

/-- Character class `\d` = `[0-9]`. -/
def isDigitChar (c : Char) : Bool :=
  decide ('0' ≤ c) && decide (c ≤ '9')

/-- Does the strict UK-plate pattern `[A-Z]{2}\d{2}[A-Z]{3}` match at the head
of the list (unanchored on the right)? -/
def strictHere (l : List Char) : Bool :=
  match l with
  | a :: b :: c :: d :: e :: f :: g :: _ =>
    isUpperLetter a && isUpperLetter b && isDigitChar c && isDigitChar d &&
      isUpperLetter e && isUpperLetter f && isUpperLetter g
  | _ => false

/-- Leftmost match of `[A-Z]{2}\d{2}[A-Z]{3}` in a character list, as
`String.match` returns it (page.tsx 409). -/
def strictFind : List Char → Option (List Char)
  | [] => none
  | c :: rest =>
    if strictHere (c :: rest) then some ((c :: rest).take 7) else strictFind rest

/-- Leftmost match of the greedy run `[A-Z0-9]{5,8}` in a character list
(page.tsx 411): at the leftmost position whose alphanumeric run has length at
least 5, the greedy quantifier takes up to 8 characters of that run. -/
def looseFind : List Char → Option (List Char)
  | [] => none
  | c :: rest =>
    let run := (c :: rest).takeWhile isPlateChar
    if 5 ≤ run.length then some (run.take 8) else looseFind rest

/-- Anchored token test `^[A-Z]{2}\d{2}[A-Z]{3}$` (page.tsx 415). -/
def isStrictToken (t : List Char) : Bool :=
  match t with
  | [a, b, c, d, e, f, g] =>
    isUpperLetter a && isUpperLetter b && isDigitChar c && isDigitChar d &&
      isUpperLetter e && isUpperLetter f && isUpperLetter g
  | _ => false

/-- Anchored token test `^[A-Z0-9]{5,8}$` (page.tsx 416). -/
def isLooseToken (t : List Char) : Bool :=
  decide (5 ≤ t.length) && decide (t.length ≤ 8) && t.all isPlateChar

/-- The `cleaned` string of `extractPlate` (page.tsx 407): uppercase, then
every character outside `[A-Z0-9]` replaced by a space.  (`toUpperCase` is
modelled by `Char.toUpper`, which agrees with JavaScript on ASCII.) -/
def plateCleaned (rawText : String) : List Char :=
  rawText.toList.map (fun ch =>
    let u := ch.toUpper
    if isPlateChar u then u else ' ')

/-- The `condensed` string of `extractPlate` (page.tsx 408): `cleaned` with
all whitespace removed (the only whitespace in `cleaned` is the space). -/
def plateCondensed (rawText : String) : List Char :=
  (plateCleaned rawText).filter (fun ch => ch ≠ ' ')

/-- The `candidates` token list of `extractPlate` (page.tsx 413):
`cleaned.split(/\s+/).filter(Boolean)`, i.e. the maximal nonempty runs
between spaces. -/
def plateTokens (rawText : String) : List (List Char) :=
  (List.splitOn ' ' (plateCleaned rawText)).filter (fun t => t ≠ [])

/-- `extractPlate` (page.tsx 406-419): strict pattern on the condensed
string, then loose run on the condensed string, then strict token, then
loose token, else the empty string. -/
def extractPlate (rawText : String) : String :=
  match strictFind (plateCondensed rawText) with
  | some m => String.mk m
  | none =>
    match looseFind (plateCondensed rawText) with
    | some m => String.mk m
    | none =>
      match (plateTokens rawText).find? isStrictToken with
      | some t => String.mk t
      | none =>
        match (plateTokens rawText).find? isLooseToken with
        | some t => String.mk t
        | none => ""

/-- `normalizePlate` (page.tsx 137-138): uppercase and strip every character
outside `[A-Z0-9]`. -/
def normalizePlate (value : String) : String :=
  String.mk ((value.toList.map Char.toUpper).filter isPlateChar)

/-! ## Boxes, IoU and non-maximum suppression (page.tsx 236-261) -/

/-- A detection box `[x1, y1, x2, y2]` (the source stores it as a 4-element
array). -/
structure Box (α : Type) where
  x1 : α
  y1 : α
  x2 : α
  y2 : α
deriving DecidableEq, Repr

/-- A detection candidate `{ box, score }`. -/
structure Cand (α : Type) where
  box : Box α
  score : α
deriving DecidableEq, Repr

variable {α : Type} [LinearOrderedField α]

/-- The intersection area term of `iou` (page.tsx 237-241). -/
def interArea (a b : Box α) : α :=
  max 0 (min a.x2 b.x2 - max a.x1 b.x1) * max 0 (min a.y2 b.y2 - max a.y1 b.y1)

/-- The clamped box area of `iou` (page.tsx 242-243). -/
def boxArea (a : Box α) : α :=
  max 0 (a.x2 - a.x1) * max 0 (a.y2 - a.y1)

/-- `iou` (page.tsx 236-245): intersection over union with a union floor
of 1. -/
def iou (a b : Box α) : α :=
  interArea a b / max 1 (boxArea a + boxArea b - interArea a b)

/-- The comparator of `nms`'s sort (page.tsx 248, `(a, b) => b.score -
a.score`): `a` may precede `b` exactly when `b.score ≤ a.score`. -/
def scoreGE (a b : Cand α) : Prop :=
  b.score ≤ a.score

instance : DecidableRel (scoreGE (α := α)) :=
  fun a b => inferInstanceAs (Decidable (b.score ≤ a.score))

/-- The stable descending-score sort of `nms` (page.tsx 248).  JavaScript's
`Array.prototype.sort` is stable; a stable sort is modelled by insertion
sort. -/
def sortCands (boxes : List (Cand α)) : List (Cand α) :=
  List.insertionSort scoreGE boxes

/-- The selection loop of `nms` (page.tsx 250-259), with an explicit fuel
argument (the loop consumes at least one element per iteration, so fuel equal
to the list length suffices). -/
def nmsGo (threshold : α) : ℕ → List (Cand α) → List (Cand α)
  | _, [] => []
  | 0, _ :: _ => []
  | fuel + 1, current :: rest =>
    current ::
      nmsGo threshold fuel
        (rest.filter (fun d => !decide (threshold < iou current.box d.box)))

/-- `nms` (page.tsx 247-261): sort by score descending, then greedily keep
the best remaining candidate and drop every candidate overlapping it with
IoU above the threshold. -/
def nms (boxes : List (Cand α)) (threshold : α) : List (Cand α) :=
  nmsGo threshold (sortCands boxes).length (sortCands boxes)

/-! ## Detector output parsing (`parseDetectorOutput`, page.tsx 263-346) -/

/-- The coordinate-magnitude sample of the boxes-first branch
(page.tsx 277-287): maximum absolute value of the first four channels over
the first `count` candidates, starting from 0. -/
def maxCoordBoxesFirst (data : ℕ → α) (channels : ℕ) (count : ℕ) : α :=
  (List.range count).foldl
    (fun maxCoord i =>
      let base := i * channels
      max (max (max (max maxCoord |data base|) |data (base + 1)|)
        |data (base + 2)|) |data (base + 3)|)
    0

/-- The coordinate-magnitude sample of the channels-first branch
(page.tsx 313-322). -/
def maxCoordChannelsFirst (data : ℕ → α) (boxes : ℕ) (count : ℕ) : α :=
  (List.range count).foldl
    (fun maxCoord i =>
      max (max (max (max maxCoord |data i|) |data (i + boxes)|)
        |data (i + 2 * boxes)|) |data (i + 3 * boxes)|)
    0

/-- Candidate decoding of the boxes-first branch (page.tsx 274-309).
`sigmoid` abstracts the real-valued logistic `1 / (1 + exp (-x))`
(page.tsx 159), which is transcendental and therefore kept as a function
parameter of the rational embedding; every theorem below holds for an
arbitrary `sigmoid`. -/
def boxesFirstCands (sigmoid : α → α) (data : ℕ → α) (boxes channels : ℕ)
    (inputWidth inputHeight scoreThreshold : α) : List (Cand α) :=
  let maxCoord := maxCoordBoxesFirst data channels (min boxes 50)
  let normalized : Bool := decide (maxCoord ≤ 1.5)
  (List.range boxes).filterMap (fun i =>
    let base := i * channels
    let x := data base
    let y := data (base + 1)
    let w := data (base + 2)
    let h := data (base + 3)
    let obj := if 4 < channels then sigmoid (data (base + 4)) else 1
    let cls := if 5 < channels then sigmoid (data (base + 5)) else 1
    let score := obj * cls
    if score < scoreThreshold then none
    else
      let scaleX := if normalized then inputWidth else 1
      let scaleY := if normalized then inputHeight else 1
      let cx := x * scaleX
      let cy := y * scaleY
      let bw := w * scaleX
      let bh := h * scaleY
      some ⟨⟨cx - bw / 2, cy - bh / 2, cx + bw / 2, cy + bh / 2⟩, score⟩)

/-- Candidate decoding of the channels-first branch (page.tsx 310-343). -/
def channelsFirstCands (sigmoid : α → α) (data : ℕ → α) (channels boxes : ℕ)
    (inputWidth inputHeight scoreThreshold : α) : List (Cand α) :=
  let maxCoord := maxCoordChannelsFirst data boxes (min boxes 50)
  let normalized : Bool := decide (maxCoord ≤ 1.5)
  (List.range boxes).filterMap (fun i =>
    let x := data i
    let y := data (i + boxes)
    let w := data (i + 2 * boxes)
    let h := data (i + 3 * boxes)
    let obj := if 4 < channels then sigmoid (data (i + 4 * boxes)) else 1
    let cls := if 5 < channels then sigmoid (data (i + 5 * boxes)) else 1
    let score := obj * cls
    if score < scoreThreshold then none
    else
      let scaleX := if normalized then inputWidth else 1
      let scaleY := if normalized then inputHeight else 1
      let cx := x * scaleX
      let cy := y * scaleY
      let bw := w * scaleX
      let bh := h * scaleY
      some ⟨⟨cx - bw / 2, cy - bh / 2, cx + bw / 2, cy + bh / 2⟩, score⟩)

/-- `parseDetectorOutput` (page.tsx 263-346): a 3-dimensional output whose
last axis has length at most 10 is decoded boxes-first (`boxes = dims[1]`,
`channels = dims[2]`), otherwise channels-first (`channels = dims[1]`,
`boxes = dims[2]`); non-3-dimensional outputs yield no candidates; the
surviving candidates pass through `nms` at threshold 0.4. -/
def parseDetectorOutput (sigmoid : α → α) (data : ℕ → α) (dims : List ℕ)
    (inputWidth inputHeight scoreThreshold : α) : List (Cand α) :=
  if dims.length = 3 then
    if dims.getD 2 0 ≤ 10 then
      nms (boxesFirstCands sigmoid data (dims.getD 1 0) (dims.getD 2 0)
        inputWidth inputHeight scoreThreshold) 0.4
    else
      nms (channelsFirstCands sigmoid data (dims.getD 1 0) (dims.getD 2 0)
        inputWidth inputHeight scoreThreshold) 0.4
  else []

/-! ## Letterbox geometry (`prepareDetectorInput`, page.tsx 190-234, and
`prepareOcrInput`, page.tsx 366-404)

Only the geometric part of the preparation is modelled; the pixel transfer
into the canvas and the planar buffer is raster work with no bearing on the
claims. -/

/-- `scale = Math.min(width / image.width, height / image.height)`
(page.tsx 201, 375-378). -/
def letterboxScale (imgW imgH tW tH : ℕ) : ℚ :=
  min ((tW : ℚ) / imgW) ((tH : ℚ) / imgH)

/-- `scaledWidth = Math.round(image.width * scale)` (page.tsx 202, 379).
Mathlib's `round` rounds half up, exactly like `Math.round`. -/
def scaledWidth (imgW imgH tW tH : ℕ) : ℤ :=
  round ((imgW : ℚ) * letterboxScale imgW imgH tW tH)

/-- `scaledHeight = Math.round(image.height * scale)` (page.tsx 203, 380). -/
def scaledHeight (imgW imgH tW tH : ℕ) : ℤ :=
  round ((imgH : ℚ) * letterboxScale imgW imgH tW tH)

/-- `padX = Math.floor((width - scaledWidth) / 2)` (page.tsx 204, 381). -/
def letterboxPadX (imgW imgH tW tH : ℕ) : ℤ :=
  ⌊((tW : ℚ) - scaledWidth imgW imgH tW tH) / 2⌋

/-- `padY = Math.floor((height - scaledHeight) / 2)` (page.tsx 205, 382). -/
def letterboxPadY (imgW imgH tW tH : ℕ) : ℤ :=
  ⌊((tH : ℚ) - scaledHeight imgW imgH tW tH) / 2⌋

/-- The geometric transform record `{ scale, padX, padY, width, height }`
returned by `prepareDetectorInput` (page.tsx 225-233). -/
structure Transform where
  scale : ℚ
  padX : ℤ
  padY : ℤ
  width : ℕ
  height : ℕ
deriving DecidableEq, Repr

/-- The transform record computed by `prepareDetectorInput` (page.tsx
190-234) for an `imgW × imgH` image letterboxed to `tW × tH`. -/
def prepareDetectorInput (imgW imgH tW tH : ℕ) : Transform :=
  { scale := letterboxScale imgW imgH tW tH
    padX := letterboxPadX imgW imgH tW tH
    padY := letterboxPadY imgW imgH tW tH
    width := tW
    height := tH }

/-- `OCR_INPUT` (page.tsx 149). -/
structure OcrInputCfg where
  width : ℕ
  height : ℕ
  maxSlots : ℕ
deriving DecidableEq, Repr

/-- `OCR_INPUT = { width: 140, height: 70, maxSlots: 9 }` (page.tsx 149). -/
def OCR_INPUT : OcrInputCfg :=
  { width := 140, height := 70, maxSlots := 9 }

/-- The letterbox geometry computed inside `prepareOcrInput` (page.tsx
375-382): the same formulas as the detector path, with the fixed
`OCR_INPUT` target size and a white background. -/
def prepareOcrInput (imgW imgH : ℕ) : Transform :=
  prepareDetectorInput imgW imgH OCR_INPUT.width OCR_INPUT.height

/-- The inverse letterbox mapping applied to the best detection box in
`handleDetectPlate` (page.tsx 566-575): subtract the pad, divide by the
scale, clamp below at 0 and above at the image size. -/
def invertBox (t : Transform) (imgW imgH : ℕ) (b : Box ℚ) : Box ℚ :=
  { x1 := max 0 ((b.x1 - t.padX) / t.scale)
    y1 := max 0 ((b.y1 - t.padY) / t.scale)
    x2 := min imgW ((b.x2 - t.padX) / t.scale)
    y2 := min imgH ((b.y2 - t.padY) / t.scale) }

/-- Modelled from the spec: the forward letterbox mapping of the round-trip
property (spec section 8, "inverse-mapping then re-forward-mapping
(scale+pad)") — multiply each coordinate by the scale and add the pad.  The
source applies this mapping implicitly when it draws the scaled image at
`(padX, padY)` (page.tsx 208). -/
def forwardBox (t : Transform) (b : Box ℚ) : Box ℚ :=
  { x1 := b.x1 * t.scale + t.padX
    y1 := b.y1 * t.scale + t.padY
    x2 := b.x2 * t.scale + t.padX
    y2 := b.y2 * t.scale + t.padY }

/-! ## OCR decoding (`decodeOcrOutput`, page.tsx 421-468)

The softmax-style confidence uses `Math.exp`, so this part of the embedding
lives over `ℝ` with `Real.exp`. -/

/-- `OCR_ALPHABET` (page.tsx 147): 10 digits, 26 letters and the padding
symbol, 37 classes in total. -/
def OCR_ALPHABET : String :=
  "0123456789ABCDEFGHIJKLMNOPQRSTUVWXYZ_"

/-- `OCR_PAD` (page.tsx 148). -/
def OCR_PAD : Char := '_'

/-- The two tensor layouts distinguished by `decodeOcrOutput`
(page.tsx 426). -/
inductive OcrLayout where
  | slotsFirst
  | classesFirst
deriving DecidableEq, Repr

/-- The shape heuristic of `decodeOcrOutput` (page.tsx 424-435): for a
3-dimensional output, a last axis equal to the alphabet size means
slots-first with `slots = dims[1]`; else a middle axis equal to the alphabet
size means classes-first with `slots = dims[2]`; otherwise the defaults
(`OCR_INPUT.maxSlots` slots, slots-first) stand.  The class count is always
the alphabet size. -/
def ocrShape (dims : List ℕ) : ℕ × OcrLayout :=
  let classes := OCR_ALPHABET.length
  if dims.length = 3 then
    if dims.getD 2 0 = classes then (dims.getD 1 0, OcrLayout.slotsFirst)
    else if dims.getD 1 0 = classes then (dims.getD 2 0, OcrLayout.classesFirst)
    else (OCR_INPUT.maxSlots, OcrLayout.slotsFirst)
  else (OCR_INPUT.maxSlots, OcrLayout.slotsFirst)

/-- The flat buffer index of class `cls` in slot `slot` (page.tsx 442-445,
454-457). -/
def ocrIndex (layout : OcrLayout) (slots slot cls : ℕ) : ℕ :=
  match layout with
  | OcrLayout.slotsFirst => slot * OCR_ALPHABET.length + cls
  | OcrLayout.classesFirst => cls * slots + slot

/-- The argmax scan of one slot (page.tsx 439-451): running maximum with
strict improvement, so the first class attaining the maximum wins.  The
source initialises the running maximum with `-Infinity`; since every finite
value beats `-Infinity` and the class count is positive, this is modelled by
starting from class 0's value. -/
noncomputable def slotMax (data : ℕ → ℝ) (layout : OcrLayout)
    (slots slot : ℕ) : ℝ × ℕ :=
  (List.range (OCR_ALPHABET.length - 1)).foldl
    (fun acc c =>
      let cls := c + 1
      let value := data (ocrIndex layout slots slot cls)
      if acc.1 < value then (value, cls) else acc)
    (data (ocrIndex layout slots slot 0), 0)

/-- The stabilised softmax denominator of one slot (page.tsx 452-459). -/
noncomputable def slotExpSum (data : ℕ → ℝ) (layout : OcrLayout)
    (slots slot : ℕ) : ℝ :=
  ∑ cls ∈ Finset.range OCR_ALPHABET.length,
    Real.exp (data (ocrIndex layout slots slot cls) -
      (slotMax data layout slots slot).1)

/-- The per-slot confidence `expSum ? 1 / expSum : 0` (page.tsx 460). -/
noncomputable def slotConfidence (data : ℕ → ℝ) (layout : OcrLayout)
    (slots slot : ℕ) : ℝ :=
  if slotExpSum data layout slots slot ≠ 0 then
    1 / slotExpSum data layout slots slot
  else 0

/-- The character contributed by one slot (page.tsx 462-465): the alphabet
character of the argmax class, or nothing when that character is the padding
symbol (or, defensively, when the index is out of the alphabet). -/
noncomputable def slotString (data : ℕ → ℝ) (layout : OcrLayout)
    (slots slot : ℕ) : String :=
  match OCR_ALPHABET.toList[(slotMax data layout slots slot).2]? with
  | some ch => if ch ≠ OCR_PAD then String.singleton ch else ""
  | none => ""

/-- The decoded text and confidence returned by `decodeOcrOutput`
(page.tsx 468). -/
structure DecodedText where
  text : String
  confidence : Option ℝ

/-- `decodeOcrOutput` (page.tsx 421-468): per-slot argmax decoding
accumulating the text and the confidence sum, then averaging; the
confidence is `null` exactly when the slot count is 0. -/
noncomputable def decodeOcrOutput (data : ℕ → ℝ) (dims : List ℕ) :
    DecodedText :=
  let slots := (ocrShape dims).1
  let layout := (ocrShape dims).2
  let acc := (List.range slots).foldl
    (fun acc slot =>
      (acc.1 ++ slotString data layout slots slot,
       acc.2 + slotConfidence data layout slots slot))
    ("", (0 : ℝ))
  { text := acc.1
    confidence := if slots ≠ 0 then some ((acc.2 / slots) * 100) else none }

/-! ## Scan orchestration and timeout (`handleDetectPlate` / `runOcr`,
page.tsx 471-514, 516-599)

The stateful React orchestration is embedded as an explicit event-step
function on the relevant state fields.  `startScan` is the timer arming at
the start of the OCR path (page.tsx 529-535); `timeoutFires` is the
15-second timer callback (page.tsx 532-535), which in JavaScript runs only
if the timer has not been cleared; `ocrCompletes p` is the completion of
`runOcr` together with the tail of `handleDetectPlate` (page.tsx 496-507,
586-592), where `p` is the extracted plate (empty when no plate was
found). -/

/-- The OCR status values (page.tsx 39-41). -/
inductive OcrStatus where
  | idle
  | loading
  | success
  | error
deriving DecidableEq, Repr

/-- The scan-relevant state fields of the page component. -/
structure ScanState where
  ocrStatus : OcrStatus
  ocrError : Option String
  detectedPlate : Option String
  timeoutPending : Bool
deriving DecidableEq, Repr

/-- The scan events. -/
inductive ScanEvent where
  | startScan
  | timeoutFires
  | ocrCompletes (plate : String)
deriving DecidableEq, Repr

/-- The timeout bound armed by `handleDetectPlate` (page.tsx 535), in
milliseconds. -/
def SCAN_TIMEOUT_MS : ℕ := 15000

/-- The error message of the timer callback (page.tsx 534). -/
def scanTimeoutMessage : String := "Scan timed out. Please try again."

/-- The error message of a completed scan that found no plate
(page.tsx 500). -/
def noPlateMessage : String := "No plate detected. Try again with a clearer shot."

/-- One event step of the scan orchestration, read off the handlers in
page.tsx 471-514 and 516-599. -/
def scanStep (s : ScanState) : ScanEvent → ScanState
  | ScanEvent.startScan =>
    { s with ocrStatus := OcrStatus.loading, ocrError := none,
             timeoutPending := true }
  | ScanEvent.timeoutFires =>
    if s.timeoutPending then
      { s with ocrStatus := OcrStatus.error,
               ocrError := some scanTimeoutMessage, timeoutPending := false }
    else s
  | ScanEvent.ocrCompletes plate =>
    if plate ≠ "" then
      { s with ocrStatus := OcrStatus.success,
               detectedPlate := some plate, timeoutPending := false }
    else
      { s with ocrStatus := OcrStatus.error,
               ocrError := some noPlateMessage, timeoutPending := false }

/-- The initial state (page.tsx 37-43). -/
def initialScanState : ScanState :=
  { ocrStatus := OcrStatus.idle, ocrError := none, detectedPlate := none,
    timeoutPending := false }

/-- Run a sequence of scan events from a state. -/
def runScan (s : ScanState) (events : List ScanEvent) : ScanState :=
  events.foldl scanStep s

/-! ## Helper lemmas about `nms` -/

instance : IsTotal (Cand α) scoreGE :=
  ⟨fun a b => le_total b.score a.score⟩

instance : IsTrans (Cand α) scoreGE :=
  ⟨fun _ _ _ hab hbc => le_trans hbc hab⟩

theorem nmsGo_sublist (t : α) :
    ∀ (fuel : ℕ) (l : List (Cand α)), List.Sublist (nmsGo t fuel l) l
  | _, [] => by cases ‹ℕ› <;> exact List.nil_sublist _
  | 0, _ :: _ => List.nil_sublist _
  | fuel + 1, current :: rest =>
    ((nmsGo_sublist t fuel _).trans (List.filter_sublist rest)).cons₂ current

theorem nmsGo_pairwise (t : α) :
    ∀ (fuel : ℕ) (l : List (Cand α)),
      (nmsGo t fuel l).Pairwise (fun a b => iou a.box b.box ≤ t)
  | _, [] => by cases ‹ℕ› <;> exact List.Pairwise.nil
  | 0, _ :: _ => List.Pairwise.nil
  | fuel + 1, current :: rest => by
    refine List.Pairwise.cons (fun b hb => ?_) (nmsGo_pairwise t fuel _)
    have hmem := ((nmsGo_sublist t fuel _).mem hb)
    have := (List.mem_filter.mp hmem).2
    simpa using this

theorem nmsGo_of_pairwise (t : α) :
    ∀ (l : List (Cand α)) (fuel : ℕ),
      l.Pairwise (fun a b => iou a.box b.box ≤ t) → l.length ≤ fuel →
      nmsGo t fuel l = l
  | [], fuel, _, _ => by cases fuel <;> rfl
  | current :: rest, 0, _, hlen => by simp at hlen
  | current :: rest, fuel + 1, hpw, hlen => by
    rw [List.pairwise_cons] at hpw
    have hfilter : rest.filter
        (fun d => !decide (t < iou current.box d.box)) = rest :=
      List.filter_eq_self.mpr fun d hd => by
        simpa using not_lt.mpr (hpw.1 d hd)
    have hlen2 : rest.length ≤ fuel := by
      simp only [List.length_cons] at hlen
      omega
    simp only [nmsGo, hfilter]
    rw [nmsGo_of_pairwise t rest fuel hpw.2 hlen2]

theorem nms_pairwise (boxes : List (Cand α)) (t : α) :
    (nms boxes t).Pairwise (fun a b => iou a.box b.box ≤ t) :=
  nmsGo_pairwise t _ _

theorem nms_sorted (boxes : List (Cand α)) (t : α) :
    (nms boxes t).Sorted scoreGE :=
  ((List.sorted_insertionSort scoreGE boxes).sublist (nmsGo_sublist t _ _))

/-! ## Helper lemmas about `parseDetectorOutput` -/

theorem channelsFirst_eq_boxesFirst (sigmoid : α → α) (C N : ℕ)
    (data dataT : ℕ → α) (w h thr : α) (hC4 : 4 ≤ C)
    (ht : ∀ b, b < N → ∀ c, c < C → dataT (c * N + b) = data (b * C + c)) :
    channelsFirstCands sigmoid dataT C N w h thr =
      boxesFirstCands sigmoid data N C w h thr := by
  have read : ∀ i, i < N → ∀ c, c < C → dataT (i + c * N) = data (i * C + c) := by
    intro i hi c hc
    rw [show i + c * N = c * N + i by omega]
    exact ht i hi c hc
  have hmax : maxCoordChannelsFirst dataT N (min N 50) =
      maxCoordBoxesFirst data C (min N 50) := by
    unfold maxCoordChannelsFirst maxCoordBoxesFirst
    refine List.foldl_ext _ _ 0 fun a i hi => ?_
    have hiN : i < N := lt_of_lt_of_le (List.mem_range.mp hi) (min_le_left _ _)
    have e0 : dataT i = data (i * C) := by
      have := read i hiN 0 (by omega)
      simpa using this
    have e1 : dataT (i + N) = data (i * C + 1) := by
      have := read i hiN 1 (by omega)
      simpa using this
    have e2 : dataT (i + 2 * N) = data (i * C + 2) := read i hiN 2 (by omega)
    have e3 : dataT (i + 3 * N) = data (i * C + 3) := read i hiN 3 (by omega)
    simp only [e0, e1, e2, e3]
  unfold channelsFirstCands boxesFirstCands
  rw [hmax]
  refine List.filterMap_congr fun i hi => ?_
  have hiN : i < N := List.mem_range.mp hi
  have e0 : dataT i = data (i * C) := by
    have := read i hiN 0 (by omega)
    simpa using this
  have e1 : dataT (i + N) = data (i * C + 1) := by
    have := read i hiN 1 (by omega)
    simpa using this
  have e2 : dataT (i + 2 * N) = data (i * C + 2) := read i hiN 2 (by omega)
  have e3 : dataT (i + 3 * N) = data (i * C + 3) := read i hiN 3 (by omega)
  by_cases h4 : 4 < C
  · have e4 : dataT (i + 4 * N) = data (i * C + 4) := read i hiN 4 h4
    by_cases h5 : 5 < C
    · have e5 : dataT (i + 5 * N) = data (i * C + 5) := read i hiN 5 h5
      simp only [e0, e1, e2, e3, e4, e5, h4, h5, if_true]
    · simp only [e0, e1, e2, e3, e4, h4, h5, if_true, if_false]
  · have h5 : ¬5 < C := by omega
    simp only [e0, e1, e2, e3, h4, h5, if_false]

/-! ## Claim theorems -/

/-- C1: `extractPlate` applies the matching policy in priority order —
strict pattern `[A-Z]{2}\d{2}[A-Z]{3}` on the condensed string, then a
loose `[A-Z0-9]{5,8}` run on the condensed string, then the strict pattern
against whitespace-split tokens, then a loose 5-to-8 alphanumeric token,
otherwise the empty string — and in particular maps `"LM22 XPT"` and
`"L M 2 2 X P T"` to `"LM22XPT"` via the strict pattern on the condensed
string, and `"??##??"` to `""`. -/
theorem extractPlate_priority_order :
    (∀ rawText : String,
      extractPlate rawText =
        match strictFind (plateCondensed rawText) with
        | some m => String.mk m
        | none =>
          match looseFind (plateCondensed rawText) with
          | some m => String.mk m
          | none =>
            match (plateTokens rawText).find? isStrictToken with
            | some t => String.mk t
            | none =>
              match (plateTokens rawText).find? isLooseToken with
              | some t => String.mk t
              | none => "") ∧
    extractPlate ("LM22 XPT") = "LM22XPT" ∧
    strictFind (plateCondensed ("LM22 XPT")) = some ("LM22XPT".toList) ∧
    extractPlate ("L M 2 2 X P T") = "LM22XPT" ∧
    strictFind (plateCondensed ("L M 2 2 X P T")) = some ("LM22XPT".toList) ∧
    extractPlate ("??##??") = "" :=
  ⟨fun _ => rfl, by decide, by decide, by decide, by decide, by decide⟩

/-- C2 amended: for every channel count `C` with `4 ≤ C ≤ 10` (a detector
output has at least the four box channels) and candidate count `N > 10`,
`parseDetectorOutput` on a boxes-first output with dims `[1, N, C]` and on
the same data transposed to channels-first dims `[1, C, N]` produces
identical detection lists; on these shapes the boxes-first branch is taken
exactly when the last axis length is at most 10 (dims `[1, N, C]`) and the
channels-first branch otherwise (dims `[1, C, N]`). -/
theorem parseDetectorOutput_axis_equiv (sigmoid : ℚ → ℚ) (C N : ℕ)
    (data dataT : ℕ → ℚ) (w h thr : ℚ) (hC4 : 4 ≤ C) (hC : C ≤ 10)
    (hN : 10 < N)
    (ht : ∀ b, b < N → ∀ c, c < C → dataT (c * N + b) = data (b * C + c)) :
    parseDetectorOutput sigmoid dataT [1, C, N] w h thr =
      parseDetectorOutput sigmoid data [1, N, C] w h thr ∧
    parseDetectorOutput sigmoid data [1, N, C] w h thr =
      nms (boxesFirstCands sigmoid data N C w h thr) 0.4 ∧
    parseDetectorOutput sigmoid dataT [1, C, N] w h thr =
      nms (channelsFirstCands sigmoid dataT C N w h thr) 0.4 := by
  have hbf : parseDetectorOutput sigmoid data [1, N, C] w h thr =
      nms (boxesFirstCands sigmoid data N C w h thr) 0.4 := by
    show (if ([1, N, C] : List ℕ).length = 3 then _ else _) = _
    rw [if_pos (show ([1, N, C] : List ℕ).length = 3 from rfl),
      if_pos (show ([1, N, C] : List ℕ).getD 2 0 ≤ 10 from hC)]
    rfl
  have hcf : parseDetectorOutput sigmoid dataT [1, C, N] w h thr =
      nms (channelsFirstCands sigmoid dataT C N w h thr) 0.4 := by
    show (if ([1, C, N] : List ℕ).length = 3 then _ else _) = _
    rw [if_pos (show ([1, C, N] : List ℕ).length = 3 from rfl),
      if_neg (show ¬([1, C, N] : List ℕ).getD 2 0 ≤ 10 by
        show ¬N ≤ 10
        omega)]
    rfl
  refine ⟨?_, hbf, hcf⟩
  rw [hbf, hcf, channelsFirst_eq_boxesFirst sigmoid C N data dataT w h thr hC4 ht]

/-- C2 witness: the amended theorem instantiated with `C = 4`, `N = 11` and
the constant-zero buffer (whose transpose is itself). -/
theorem parseDetectorOutput_axis_equiv_witness :
    (4 ≤ 4 ∧ 4 ≤ 10 ∧ 10 < 11) ∧
    parseDetectorOutput id (fun _ => (0 : ℚ)) [1, 4, 11] 640 640 0.3 =
      parseDetectorOutput id (fun _ => (0 : ℚ)) [1, 11, 4] 640 640 0.3 :=
  ⟨⟨le_rfl, by omega, by omega⟩,
   (parseDetectorOutput_axis_equiv id 4 11 (fun _ => 0) (fun _ => 0)
      640 640 0.3 le_rfl (by omega) (by omega)
      (fun _ _ _ _ => rfl)).1⟩

set_option maxRecDepth 40000 in
/-- C2 counterexample: the claim as stated (every `C ≤ 10`) fails at
`C = 2`, `N = 11`: both branches read the first four channel slots of every
candidate, so with only two channels the boxes-first branch reads into the
next candidate while the channels-first branch reads past the `2 × 11`
buffer, and the two layouts decode different boxes from the same (in-range)
transposed data. -/
theorem parseDetectorOutput_axis_equiv_counterexample :
    (∀ b, b < 11 → ∀ c, c < 2 →
      (fun k => if k < 22 then (1 : ℚ) else 0) (c * 11 + b) =
        (fun k => if k < 22 then (1 : ℚ) else 0) (b * 2 + c)) ∧
    parseDetectorOutput id (fun k => if k < 22 then (1 : ℚ) else 0)
        [1, 2, 11] 640 640 0.3 ≠
      parseDetectorOutput id (fun k => if k < 22 then (1 : ℚ) else 0)
        [1, 11, 2] 640 640 0.3 := by
  constructor
  · intro b hb c hc
    simp only
    rw [if_pos (by omega), if_pos (by omega)]
  · with_unfolding_all decide

/-- C4: non-maximum suppression at the fixed IoU threshold 0.4 is
idempotent. -/
theorem nms_idempotent (cands : List (Cand ℚ)) :
    nms (nms cands 0.4) 0.4 = nms cands 0.4 := by
  have hsorted : (nms cands 0.4).Sorted scoreGE := nms_sorted cands 0.4
  have hsort : sortCands (nms cands 0.4) = nms cands 0.4 :=
    hsorted.insertionSort_eq
  show nmsGo 0.4 (sortCands (nms cands 0.4)).length (sortCands (nms cands 0.4))
      = nms cands 0.4
  rw [hsort]
  exact nmsGo_of_pairwise 0.4 _ _ (nms_pairwise cands 0.4) le_rfl

/-- C7: for positive image and target sizes, the letterbox preprocessing of
`prepareDetectorInput` / `prepareOcrInput` computes
`scale = min(targetW/imgW, targetH/imgH)` and rounded scaled dimensions, its
pads are nonnegative, and the scaled dimensions preserve the aspect ratio
within rounding tolerance: cross-multiplied,
`|scaledW·imgH − scaledH·imgW| ≤ (imgW + imgH)/2` (each rounded dimension is
within 1/2 of the exact one). -/
theorem letterbox_aspect_and_pad (imgW imgH tW tH : ℕ)
    (hw : 0 < imgW) (hh : 0 < imgH) (htw : 0 < tW) (hth : 0 < tH) :
    letterboxScale imgW imgH tW tH = min ((tW : ℚ) / imgW) ((tH : ℚ) / imgH) ∧
    scaledWidth imgW imgH tW tH =
      round ((imgW : ℚ) * letterboxScale imgW imgH tW tH) ∧
    scaledHeight imgW imgH tW tH =
      round ((imgH : ℚ) * letterboxScale imgW imgH tW tH) ∧
    0 ≤ letterboxPadX imgW imgH tW tH ∧
    0 ≤ letterboxPadY imgW imgH tW tH ∧
    |(scaledWidth imgW imgH tW tH : ℚ) * imgH -
        (scaledHeight imgW imgH tW tH : ℚ) * imgW| ≤
      ((imgW : ℚ) + imgH) / 2 := by
  have hW0 : (0 : ℚ) < imgW := by exact_mod_cast hw
  have hH0 : (0 : ℚ) < imgH := by exact_mod_cast hh
  set s := letterboxScale imgW imgH tW tH with hs
  have hsW : (imgW : ℚ) * s ≤ tW := by
    have h1 : s ≤ (tW : ℚ) / imgW := min_le_left _ _
    calc (imgW : ℚ) * s ≤ (imgW : ℚ) * ((tW : ℚ) / imgW) :=
          mul_le_mul_of_nonneg_left h1 hW0.le
      _ = tW := by field_simp
  have hsH : (imgH : ℚ) * s ≤ tH := by
    have h1 : s ≤ (tH : ℚ) / imgH := min_le_right _ _
    calc (imgH : ℚ) * s ≤ (imgH : ℚ) * ((tH : ℚ) / imgH) :=
          mul_le_mul_of_nonneg_left h1 hH0.le
      _ = tH := by field_simp
  have hroundW : scaledWidth imgW imgH tW tH ≤ (tW : ℤ) := by
    have : round ((imgW : ℚ) * s) ≤ round ((tW : ℚ)) := by
      rw [round_eq, round_eq]
      exact Int.floor_mono (by linarith)
    simpa [scaledWidth, round_natCast, hs] using this
  have hroundH : scaledHeight imgW imgH tW tH ≤ (tH : ℤ) := by
    have : round ((imgH : ℚ) * s) ≤ round ((tH : ℚ)) := by
      rw [round_eq, round_eq]
      exact Int.floor_mono (by linarith)
    simpa [scaledHeight, round_natCast, hs] using this
  refine ⟨rfl, rfl, rfl, ?_, ?_, ?_⟩
  · refine Int.le_floor.mpr ?_
    have : ((scaledWidth imgW imgH tW tH : ℤ) : ℚ) ≤ ((tW : ℤ) : ℚ) :=
      Int.cast_le.mpr hroundW
    push_cast at this ⊢
    linarith
  · refine Int.le_floor.mpr ?_
    have : ((scaledHeight imgW imgH tW tH : ℤ) : ℚ) ≤ ((tH : ℤ) : ℚ) :=
      Int.cast_le.mpr hroundH
    push_cast at this ⊢
    linarith
  · have hA := abs_le.mp (abs_sub_round ((imgW : ℚ) * s))
    have hB := abs_le.mp (abs_sub_round ((imgH : ℚ) * s))
    have eA : (scaledWidth imgW imgH tW tH : ℚ) = (round ((imgW : ℚ) * s) : ℚ) := by
      rw [scaledWidth, hs]
    have eB : (scaledHeight imgW imgH tW tH : ℚ) = (round ((imgH : ℚ) * s) : ℚ) := by
      rw [scaledHeight, hs]
    rw [eA, eB, abs_le]
    constructor
    · nlinarith [mul_le_mul_of_nonneg_right hA.1 hH0.le,
        mul_le_mul_of_nonneg_right hA.2 hH0.le,
        mul_le_mul_of_nonneg_right hB.1 hW0.le,
        mul_le_mul_of_nonneg_right hB.2 hW0.le]
    · nlinarith [mul_le_mul_of_nonneg_right hA.1 hH0.le,
        mul_le_mul_of_nonneg_right hA.2 hH0.le,
        mul_le_mul_of_nonneg_right hB.1 hW0.le,
        mul_le_mul_of_nonneg_right hB.2 hW0.le]

/-- C7 witness: the letterbox theorem applied to a 960 × 540 image and the
640 × 640 detector input. -/
theorem letterbox_aspect_and_pad_witness :
    (0 < 960 ∧ 0 < 540 ∧ 0 < 640 ∧ 0 < 640) ∧
    0 ≤ letterboxPadX 960 540 640 640 ∧
    0 ≤ letterboxPadY 960 540 640 640 ∧
    |(scaledWidth 960 540 640 640 : ℚ) * 540 -
        (scaledHeight 960 540 640 640 : ℚ) * 960| ≤ ((960 : ℚ) + 540) / 2 :=
  ⟨⟨by decide, by decide, by decide, by decide⟩,
   (letterbox_aspect_and_pad 960 540 640 640 (by decide) (by decide)
      (by decide) (by decide)).2.2.2.1,
   (letterbox_aspect_and_pad 960 540 640 640 (by decide) (by decide)
      (by decide) (by decide)).2.2.2.2.1,
   (letterbox_aspect_and_pad 960 540 640 640 (by decide) (by decide)
      (by decide) (by decide)).2.2.2.2.2⟩

set_option maxRecDepth 100000 in
/-- C6 counterexample: the round-trip claim fails for boxes reaching into
the letterbox padding.  A 320 × 640 image letterboxed to 640 × 640 has
`scale = 1`, `padX = 160`; the tensor-space box `[0, 10, 300, 20]` starts
left of the pad, the low clamp `max(0, ·)` moves its `x1` to 0, and
re-applying the forward mapping lands at 160 — off by 160 > 1 pixels. -/
theorem letterbox_roundtrip_counterexample :
    prepareDetectorInput 320 640 640 640 =
      { scale := 1, padX := 160, padY := 0, width := 640, height := 640 } ∧
    (forwardBox (prepareDetectorInput 320 640 640 640)
        (invertBox (prepareDetectorInput 320 640 640 640) 320 640
          (Box.mk 0 10 300 20))).x1 = 160 ∧
    ¬|(forwardBox (prepareDetectorInput 320 640 640 640)
        (invertBox (prepareDetectorInput 320 640 640 640) 320 640
          (Box.mk 0 10 300 20))).x1 - (Box.mk (0 : ℚ) 10 300 20).x1| ≤ 1 := by
  refine ⟨?_, ?_, ?_⟩ <;> with_unfolding_all decide

/-- C6 amended: for boxes that lie inside the letterboxed content region
(between the pads and the pad plus the scaled image extent), inverse-mapping
and then re-applying the forward mapping returns the original box exactly —
in particular within ±1 pixel in each component.  (The counterexample above
shows the clamps break the round-trip for boxes outside that region, so the
restriction is necessary.) -/
theorem letterbox_roundtrip (imgW imgH tW tH : ℕ) (b : Box ℚ)
    (hw : 0 < imgW) (hh : 0 < imgH) (htw : 0 < tW) (hth : 0 < tH)
    (hx1 : ((prepareDetectorInput imgW imgH tW tH).padX : ℚ) ≤ b.x1)
    (hy1 : ((prepareDetectorInput imgW imgH tW tH).padY : ℚ) ≤ b.y1)
    (hx2 : b.x2 ≤ ((prepareDetectorInput imgW imgH tW tH).padX : ℚ) +
      (imgW : ℚ) * (prepareDetectorInput imgW imgH tW tH).scale)
    (hy2 : b.y2 ≤ ((prepareDetectorInput imgW imgH tW tH).padY : ℚ) +
      (imgH : ℚ) * (prepareDetectorInput imgW imgH tW tH).scale) :
    forwardBox (prepareDetectorInput imgW imgH tW tH)
      (invertBox (prepareDetectorInput imgW imgH tW tH) imgW imgH b) = b := by
  have hW0 : (0 : ℚ) < imgW := by exact_mod_cast hw
  have hH0 : (0 : ℚ) < imgH := by exact_mod_cast hh
  have hTW0 : (0 : ℚ) < tW := by exact_mod_cast htw
  have hTH0 : (0 : ℚ) < tH := by exact_mod_cast hth
  have hs : 0 < (prepareDetectorInput imgW imgH tW tH).scale :=
    lt_min (div_pos hTW0 hW0) (div_pos hTH0 hH0)
  set t := prepareDetectorInput imgW imgH tW tH
  have hsne : t.scale ≠ 0 := ne_of_gt hs
  obtain ⟨bx1, by1, bx2, by2⟩ := b
  simp only [forwardBox, invertBox, Box.mk.injEq] at *
  refine ⟨?_, ?_, ?_, ?_⟩
  · rw [max_eq_right (div_nonneg (by linarith) hs.le), div_mul_cancel₀ _ hsne]
    ring
  · rw [max_eq_right (div_nonneg (by linarith) hs.le), div_mul_cancel₀ _ hsne]
    ring
  · rw [min_eq_right ((div_le_iff₀ hs).mpr (by linarith)),
      div_mul_cancel₀ _ hsne]
    ring
  · rw [min_eq_right ((div_le_iff₀ hs).mpr (by linarith)),
      div_mul_cancel₀ _ hsne]
    ring

set_option maxRecDepth 100000 in
/-- C6 witness: the amended round-trip theorem applied to the 640 × 640
identity letterbox (scale 1, no pads) and the box `[0, 0, 640, 640]`. -/
theorem letterbox_roundtrip_witness :
    (((prepareDetectorInput 640 640 640 640).padX : ℚ) ≤ 0 ∧
      (0 : ℚ) ≤ 640 ∧
      (640 : ℚ) ≤ ((prepareDetectorInput 640 640 640 640).padX : ℚ) +
        (640 : ℚ) * (prepareDetectorInput 640 640 640 640).scale) ∧
    forwardBox (prepareDetectorInput 640 640 640 640)
        (invertBox (prepareDetectorInput 640 640 640 640) 640 640
          (Box.mk 0 0 640 640)) = Box.mk 0 0 640 640 :=
  ⟨⟨by with_unfolding_all decide, by with_unfolding_all decide,
    by with_unfolding_all decide⟩,
   letterbox_roundtrip 640 640 640 640 (Box.mk 0 0 640 640)
     (by decide) (by decide) (by decide) (by decide)
     (by with_unfolding_all decide) (by with_unfolding_all decide)
     (by with_unfolding_all decide) (by with_unfolding_all decide)⟩

/-- C5 counterexample: the claim "`iou(b, b) = 1.0` for every non-degenerate
box" fails for the non-degenerate box `[0, 0, 1/2, 1/2]`, whose area 1/4 is
below the union floor of 1: `iou` returns 1/4. -/
theorem iou_self_counterexample :
    ((0 : ℚ) < 1 / 2) ∧
    iou (Box.mk (0 : ℚ) 0 (1 / 2) (1 / 2)) (Box.mk (0 : ℚ) 0 (1 / 2) (1 / 2))
      = 1 / 4 ∧
    ((1 : ℚ) / 4) ≠ 1 := by
  with_unfolding_all decide

/-- C5 amended: `iou(b, b) = 1` for every non-degenerate box whose area is
at least the union floor 1; `iou` of boxes with empty intersection is 0; and
`iou` is intersection over union with zero-clamped areas and a union floor
of 1. -/
theorem iou_self_and_disjoint :
    (∀ b : Box ℚ, b.x1 < b.x2 → b.y1 < b.y2 →
      1 ≤ (b.x2 - b.x1) * (b.y2 - b.y1) → iou b b = 1) ∧
    (∀ a b : Box ℚ, interArea a b = 0 → iou a b = 0) ∧
    (∀ a b : Box ℚ,
      iou a b = interArea a b /
        max 1 (boxArea a + boxArea b - interArea a b)) := by
  refine ⟨fun b hx hy harea => ?_, fun a b h => ?_, fun a b => rfl⟩
  · have hxx : (0 : ℚ) ≤ b.x2 - b.x1 := by linarith
    have hyy : (0 : ℚ) ≤ b.y2 - b.y1 := by linarith
    have hI : interArea b b = (b.x2 - b.x1) * (b.y2 - b.y1) := by
      simp [interArea, max_self, min_self, max_eq_right, hxx, hyy]
    have hA : boxArea b = (b.x2 - b.x1) * (b.y2 - b.y1) := by
      simp [boxArea, max_eq_right, hxx, hyy]
    have hpos : (0 : ℚ) < (b.x2 - b.x1) * (b.y2 - b.y1) := by linarith
    rw [iou, hI, hA]
    rw [show (b.x2 - b.x1) * (b.y2 - b.y1) + (b.x2 - b.x1) * (b.y2 - b.y1) -
        (b.x2 - b.x1) * (b.y2 - b.y1) = (b.x2 - b.x1) * (b.y2 - b.y1) by ring]
    rw [max_eq_right harea]
    exact div_self (ne_of_gt hpos)
  · rw [iou, h, zero_div]

/-- C5 witness: the amended theorem applied to the box `[0, 0, 2, 3]` (area
6 ≥ 1) and to the disjoint pair `[0, 0, 1, 1]`, `[2, 2, 3, 3]`. -/
theorem iou_self_and_disjoint_witness :
    ((0 : ℚ) < 2 ∧ (0 : ℚ) < 3 ∧
      (1 : ℚ) ≤ ((2 : ℚ) - 0) * ((3 : ℚ) - 0) ∧
      iou (Box.mk (0 : ℚ) 0 2 3) (Box.mk (0 : ℚ) 0 2 3) = 1) ∧
    (interArea (Box.mk (0 : ℚ) 0 1 1) (Box.mk (2 : ℚ) 2 3 3) = 0 ∧
      iou (Box.mk (0 : ℚ) 0 1 1) (Box.mk (2 : ℚ) 2 3 3) = 0) :=
  ⟨⟨by with_unfolding_all decide, by with_unfolding_all decide,
    by with_unfolding_all decide,
    iou_self_and_disjoint.1 (Box.mk (0 : ℚ) 0 2 3)
      (by with_unfolding_all decide) (by with_unfolding_all decide)
      (by with_unfolding_all decide)⟩,
   ⟨by with_unfolding_all decide,
    iou_self_and_disjoint.2.1 (Box.mk (0 : ℚ) 0 1 1) (Box.mk (2 : ℚ) 2 3 3)
      (by with_unfolding_all decide)⟩⟩

/-! ## Helper lemmas about the OCR decoder -/

theorem string_foldl_append (l : List String) :
    ∀ s : String, l.foldl (fun r t => r ++ t) s = s ++ String.join l := by
  induction l with
  | nil => intro s; simp [String.join]
  | cons a tl ih =>
    intro s
    have hj : String.join (a :: tl) = a ++ String.join tl := by
      show tl.foldl (fun r t => r ++ t) ("" ++ a) = a ++ String.join tl
      rw [ih ("" ++ a)]
      simp
    simp only [List.foldl_cons, hj, ih (s ++ a), String.append_assoc]

theorem real_foldl_add (g : ℕ → ℝ) (l : List ℕ) :
    ∀ x : ℝ, l.foldl (fun y slot => y + g slot) x = x + (l.map g).sum := by
  induction l with
  | nil => intro x; simp
  | cons a tl ih =>
    intro x
    simp only [List.foldl_cons, List.map_cons, List.sum_cons, ih (x + g a)]
    ring

theorem decode_foldl_split (f : ℕ → String) (g : ℕ → ℝ) (l : List ℕ) :
    ∀ (s : String) (x : ℝ),
      l.foldl (fun acc slot => (acc.1 ++ f slot, acc.2 + g slot)) (s, x) =
        (s ++ String.join (l.map f), x + (l.map g).sum) := by
  induction l with
  | nil => intro s x; simp [String.join]
  | cons a tl ih =>
    intro s x
    simp only [List.foldl_cons, ih (s ++ f a) (x + g a), List.map_cons,
      List.sum_cons]
    have hj : String.join (f a :: tl.map f) = f a ++ String.join (tl.map f) := by
      show (tl.map f).foldl (fun r t => r ++ t) ("" ++ f a) = _
      rw [string_foldl_append (tl.map f) ("" ++ f a)]
      simp
    rw [hj]
    refine Prod.ext ?_ ?_
    · simp [String.append_assoc]
    · simp only
      ring

/-- C3: in `decodeOcrOutput`, a slot whose argmax class is the padding
symbol contributes no character to the decoded string (second conjunct),
while its per-slot confidence is still part of the confidence sum taken over
all slots — the overall confidence is (sum over all slots / slot count) ×
100, and `none` exactly when the slot count is zero (third conjunct).  In
particular, with 9 slots of which one decodes to the padding symbol, the
output string skips that slot and the confidence still averages over
all 9. -/
theorem decodeOcrOutput_pad_skip_and_confidence (data : ℕ → ℝ)
    (dims : List ℕ) :
    (decodeOcrOutput data dims).text =
      String.join ((List.range (ocrShape dims).1).map
        (fun slot => slotString data (ocrShape dims).2 (ocrShape dims).1 slot)) ∧
    (∀ slot : ℕ,
      slotString data (ocrShape dims).2 (ocrShape dims).1 slot =
        match OCR_ALPHABET.toList[(slotMax data (ocrShape dims).2
            (ocrShape dims).1 slot).2]? with
        | some ch => if ch = OCR_PAD then "" else String.singleton ch
        | none => "") ∧
    (decodeOcrOutput data dims).confidence =
      (if (ocrShape dims).1 ≠ 0 then
        some ((((List.range (ocrShape dims).1).map
            (fun slot => slotConfidence data (ocrShape dims).2
              (ocrShape dims).1 slot)).sum /
          ((ocrShape dims).1 : ℝ)) * 100)
       else none) := by
  refine ⟨?_, ?_, ?_⟩
  · show ((List.range (ocrShape dims).1).foldl _ ("", (0 : ℝ))).1 = _
    rw [decode_foldl_split]
    simp
  · intro slot
    unfold slotString
    rcases OCR_ALPHABET.toList[(slotMax data (ocrShape dims).2
        (ocrShape dims).1 slot).2]? with _ | ch
    · rfl
    · by_cases hch : ch = OCR_PAD <;> simp [hch]
  · show (if (ocrShape dims).1 ≠ 0 then
        some ((((List.range (ocrShape dims).1).foldl _ ("", (0 : ℝ))).2 /
          ((ocrShape dims).1 : ℝ)) * 100) else none) = _
    rw [decode_foldl_split]
    simp

theorem argmax_foldl_fst_eq (g : ℕ → ℝ) (l : List ℕ) :
    ∀ p : ℝ × ℕ, p.1 = g p.2 →
      (l.foldl (fun acc c => if acc.1 < g (c + 1) then (g (c + 1), c + 1)
        else acc) p).1 =
      g ((l.foldl (fun acc c => if acc.1 < g (c + 1) then (g (c + 1), c + 1)
        else acc) p).2) := by
  induction l with
  | nil => intro p hp; exact hp
  | cons a tl ih =>
    intro p hp
    simp only [List.foldl_cons]
    by_cases h : p.1 < g (a + 1)
    · rw [if_pos h]; exact ih _ rfl
    · rw [if_neg h]; exact ih _ hp

theorem argmax_foldl_snd_bound (g : ℕ → ℝ) (l : List ℕ) :
    ∀ p : ℝ × ℕ,
      (l.foldl (fun acc c => if acc.1 < g (c + 1) then (g (c + 1), c + 1)
        else acc) p).2 = p.2 ∨
      ∃ c ∈ l, (l.foldl (fun acc c => if acc.1 < g (c + 1) then (g (c + 1), c + 1)
        else acc) p).2 = c + 1 := by
  induction l with
  | nil => intro p; exact Or.inl rfl
  | cons a tl ih =>
    intro p
    simp only [List.foldl_cons]
    by_cases h : p.1 < g (a + 1)
    · rw [if_pos h]
      rcases ih (g (a + 1), a + 1) with h1 | ⟨c, hc, hc2⟩
      · exact Or.inr ⟨a, List.mem_cons_self a tl, h1⟩
      · exact Or.inr ⟨c, List.mem_cons_of_mem a hc, hc2⟩
    · rw [if_neg h]
      rcases ih p with h1 | ⟨c, hc, hc2⟩
      · exact Or.inl h1
      · exact Or.inr ⟨c, List.mem_cons_of_mem a hc, hc2⟩

theorem argmax_foldl_le (g : ℕ → ℝ) (l : List ℕ) :
    ∀ p : ℝ × ℕ,
      p.1 ≤ (l.foldl (fun acc c => if acc.1 < g (c + 1) then (g (c + 1), c + 1)
        else acc) p).1 ∧
      ∀ c ∈ l, g (c + 1) ≤
        (l.foldl (fun acc c => if acc.1 < g (c + 1) then (g (c + 1), c + 1)
          else acc) p).1 := by
  induction l with
  | nil => intro p; exact ⟨le_rfl, fun c hc => absurd hc (List.not_mem_nil c)⟩
  | cons a tl ih =>
    intro p
    simp only [List.foldl_cons]
    by_cases h : p.1 < g (a + 1)
    · rw [if_pos h]
      obtain ⟨h1, h2⟩ := ih (g (a + 1), a + 1)
      refine ⟨le_trans h.le h1, fun c hc => ?_⟩
      rcases List.mem_cons.mp hc with rfl | hc
      · exact h1
      · exact h2 c hc
    · rw [if_neg h]
      obtain ⟨h1, h2⟩ := ih p
      refine ⟨h1, fun c hc => ?_⟩
      rcases List.mem_cons.mp hc with rfl | hc
      · exact le_trans (not_lt.mp h) h1
      · exact h2 c hc

theorem argmax_foldl_const (g : ℕ → ℝ) (l : List ℕ) :
    ∀ p : ℝ × ℕ, (∀ c ∈ l, g (c + 1) ≤ p.1) →
      l.foldl (fun acc c => if acc.1 < g (c + 1) then (g (c + 1), c + 1)
        else acc) p = p := by
  induction l with
  | nil => intro p _; rfl
  | cons a tl ih =>
    intro p hp
    simp only [List.foldl_cons]
    rw [if_neg (not_lt.mpr (hp a (List.mem_cons_self a tl)))]
    exact ih p fun c hc => hp c (List.mem_cons_of_mem a hc)

theorem OCR_ALPHABET_length : OCR_ALPHABET.length = 37 := by decide

theorem slotMax_spec (data : ℕ → ℝ) (layout : OcrLayout) (slots slot : ℕ) :
    (slotMax data layout slots slot).1 =
      data (ocrIndex layout slots slot (slotMax data layout slots slot).2) ∧
    (slotMax data layout slots slot).2 < OCR_ALPHABET.length ∧
    ∀ cls, cls < OCR_ALPHABET.length →
      data (ocrIndex layout slots slot cls) ≤
        (slotMax data layout slots slot).1 := by
  have h1 := argmax_foldl_fst_eq (fun cls => data (ocrIndex layout slots slot cls))
    (List.range (OCR_ALPHABET.length - 1))
    (data (ocrIndex layout slots slot 0), 0) rfl
  have h2 := argmax_foldl_snd_bound
    (fun cls => data (ocrIndex layout slots slot cls))
    (List.range (OCR_ALPHABET.length - 1))
    (data (ocrIndex layout slots slot 0), 0)
  have h3 := argmax_foldl_le (fun cls => data (ocrIndex layout slots slot cls))
    (List.range (OCR_ALPHABET.length - 1))
    (data (ocrIndex layout slots slot 0), 0)
  refine ⟨h1, ?_, ?_⟩
  · rcases h2 with h | ⟨c, hc, hc2⟩
    · show (slotMax data layout slots slot).2 < OCR_ALPHABET.length
      rw [show (slotMax data layout slots slot).2 = 0 from h]
      rw [OCR_ALPHABET_length]
      omega
    · show (slotMax data layout slots slot).2 < OCR_ALPHABET.length
      rw [show (slotMax data layout slots slot).2 = c + 1 from hc2]
      have := List.mem_range.mp hc
      omega
  · intro cls hcls
    rcases Nat.eq_zero_or_pos cls with rfl | hpos
    · exact h3.1
    · have : cls - 1 ∈ List.range (OCR_ALPHABET.length - 1) :=
        List.mem_range.mpr (by omega)
      have := h3.2 (cls - 1) this
      simpa [Nat.sub_add_cancel hpos] using this

theorem slotExpSum_ge_one (data : ℕ → ℝ) (layout : OcrLayout)
    (slots slot : ℕ) : 1 ≤ slotExpSum data layout slots slot := by
  obtain ⟨hfst, hlt, _⟩ := slotMax_spec data layout slots slot
  have hmem : (slotMax data layout slots slot).2 ∈
      Finset.range OCR_ALPHABET.length := Finset.mem_range.mpr hlt
  unfold slotExpSum
  have hsingle := Finset.single_le_sum
    (f := fun cls => Real.exp (data (ocrIndex layout slots slot cls) -
      (slotMax data layout slots slot).1))
    (fun i _ => (Real.exp_pos _).le) hmem
  simp only at hsingle
  rw [← hfst, sub_self, Real.exp_zero] at hsingle
  exact hsingle

theorem slotExpSum_pos (data : ℕ → ℝ) (layout : OcrLayout)
    (slots slot : ℕ) : 0 < slotExpSum data layout slots slot :=
  lt_of_lt_of_le one_pos (slotExpSum_ge_one data layout slots slot)

/-- Modelled from the spec: the margin scenario of spec section 8 ("as raw
score margin between top and second class grows, confidence → 1") — one
slot whose class 0 leads every other class by the raw-score margin `m`. -/
def ocrSpike (m : ℝ) : ℕ → ℝ :=
  fun i => if i = 0 then m else 0

theorem slotMax_spike (m : ℝ) (hm : 0 ≤ m) :
    slotMax (ocrSpike m) OcrLayout.slotsFirst 9 0 = (m, 0) := by
  have hidx : ∀ cls : ℕ, ocrIndex OcrLayout.slotsFirst 9 0 cls = cls := by
    intro cls
    simp [ocrIndex]
  have h := argmax_foldl_const
    (fun cls => ocrSpike m (ocrIndex OcrLayout.slotsFirst 9 0 cls))
    (List.range (OCR_ALPHABET.length - 1))
    (ocrSpike m (ocrIndex OcrLayout.slotsFirst 9 0 0), 0)
    (fun c _ => by simpa [hidx, ocrSpike] using hm)
  show (List.range (OCR_ALPHABET.length - 1)).foldl _ _ = (m, 0)
  rw [h]
  simp [hidx, ocrSpike]

theorem slotExpSum_spike (m : ℝ) (hm : 0 ≤ m) :
    slotExpSum (ocrSpike m) OcrLayout.slotsFirst 9 0 =
      1 + 36 * Real.exp (-m) := by
  have hidx : ∀ cls : ℕ, ocrIndex OcrLayout.slotsFirst 9 0 cls = cls := by
    intro cls
    simp [ocrIndex]
  unfold slotExpSum
  rw [slotMax_spike m hm]
  have h0 : (0 : ℕ) ∈ Finset.range OCR_ALPHABET.length := by
    rw [OCR_ALPHABET_length]
    exact Finset.mem_range.mpr (by omega)
  rw [← Finset.sum_erase_add _ _ h0]
  have hrest : ∑ cls ∈ (Finset.range OCR_ALPHABET.length).erase 0,
      Real.exp (ocrSpike m (ocrIndex OcrLayout.slotsFirst 9 0 cls) - (m, 0).1)
      = 36 * Real.exp (-m) := by
    have hcongr : ∀ cls ∈ (Finset.range OCR_ALPHABET.length).erase 0,
        Real.exp (ocrSpike m (ocrIndex OcrLayout.slotsFirst 9 0 cls) - (m, 0).1)
          = Real.exp (-m) := by
      intro cls hcls
      have hne : cls ≠ 0 := (Finset.mem_erase.mp hcls).1
      simp [hidx, ocrSpike, hne]
    rw [Finset.sum_congr rfl hcongr, Finset.sum_const,
      Finset.card_erase_of_mem h0, OCR_ALPHABET_length]
    simp [nsmul_eq_mul]
  rw [hrest]
  have hzero : Real.exp (ocrSpike m (ocrIndex OcrLayout.slotsFirst 9 0 0)
      - (m, 0).1) = 1 := by
    simp [hidx, ocrSpike]
  rw [hzero]
  ring

theorem slotConfidence_spike (m : ℝ) (hm : 0 ≤ m) :
    slotConfidence (ocrSpike m) OcrLayout.slotsFirst 9 0 =
      1 / (1 + 36 * Real.exp (-m)) := by
  unfold slotConfidence
  rw [slotExpSum_spike m hm, if_pos]
  positivity

/-- C8: the per-slot confidence `1 / Σ exp(score − maxScore)` of
`decodeOcrOutput` always lies in `(0, 1]`, and in the margin scenario
`ocrSpike` (top class ahead of every other class by `m ≥ 0`) it equals
`1 / (1 + 36·exp(−m))`, strictly increases with the margin, and tends to 1
as the margin grows. -/
theorem slotConfidence_range_and_margin :
    (∀ (data : ℕ → ℝ) (layout : OcrLayout) (slots slot : ℕ),
        slotConfidence data layout slots slot ∈ Set.Ioc (0 : ℝ) 1) ∧
    (∀ m : ℝ, 0 ≤ m →
        slotConfidence (ocrSpike m) OcrLayout.slotsFirst 9 0 =
          1 / (1 + 36 * Real.exp (-m))) ∧
    (∀ m₁ m₂ : ℝ, 0 ≤ m₁ → m₁ < m₂ →
        slotConfidence (ocrSpike m₁) OcrLayout.slotsFirst 9 0 <
          slotConfidence (ocrSpike m₂) OcrLayout.slotsFirst 9 0) ∧
    Filter.Tendsto
      (fun m => slotConfidence (ocrSpike m) OcrLayout.slotsFirst 9 0)
      Filter.atTop (nhds 1) := by
  have hrange : ∀ (data : ℕ → ℝ) (layout : OcrLayout) (slots slot : ℕ),
      slotConfidence data layout slots slot ∈ Set.Ioc (0 : ℝ) 1 := by
    intro data layout slots slot
    have hpos := slotExpSum_pos data layout slots slot
    have hone := slotExpSum_ge_one data layout slots slot
    unfold slotConfidence
    rw [if_pos (ne_of_gt hpos)]
    exact ⟨by positivity, by
      rw [div_le_one hpos]
      linarith⟩
  refine ⟨hrange, slotConfidence_spike, ?_, ?_⟩
  · intro m₁ m₂ hm1 hm2
    rw [slotConfidence_spike m₁ hm1, slotConfidence_spike m₂ (by linarith)]
    have hexp : Real.exp (-m₂) < Real.exp (-m₁) :=
      Real.exp_lt_exp.mpr (by linarith)
    have hd2 : (0 : ℝ) < 1 + 36 * Real.exp (-m₂) := by positivity
    exact one_div_lt_one_div_of_lt hd2 (by linarith)
  · have h0 : Filter.Tendsto (fun m : ℝ => 1 + 36 * Real.exp (-m))
        Filter.atTop (nhds 1) := by
      have h1 := Real.tendsto_exp_neg_atTop_nhds_zero.const_mul (36 : ℝ)
      have h2 := h1.const_add (1 : ℝ)
      simpa using h2
    have h1 : Filter.Tendsto (fun m : ℝ => 1 / (1 + 36 * Real.exp (-m)))
        Filter.atTop (nhds 1) := by
      have := h0.inv₀ (by norm_num)
      simpa [one_div] using this
    refine h1.congr' ?_
    filter_upwards [Filter.eventually_ge_atTop (0 : ℝ)] with m hm
    exact (slotConfidence_spike m hm).symm

/-- C8 witness: the theorem applied to a concrete slot (`data ≡ 0`) and to
the concrete margins 0 < 1. -/
theorem slotConfidence_range_and_margin_witness :
    ((0 : ℝ) ≤ 0 ∧ (0 : ℝ) < 1) ∧
    slotConfidence (fun _ => (0 : ℝ)) OcrLayout.slotsFirst 9 0 ∈
      Set.Ioc (0 : ℝ) 1 ∧
    slotConfidence (ocrSpike 0) OcrLayout.slotsFirst 9 0 <
      slotConfidence (ocrSpike 1) OcrLayout.slotsFirst 9 0 :=
  ⟨⟨le_rfl, zero_lt_one⟩,
   slotConfidence_range_and_margin.1 (fun _ => 0) OcrLayout.slotsFirst 9 0,
   slotConfidence_range_and_margin.2.2.1 0 1 le_rfl zero_lt_one⟩

/-- C9: when neither axis-order heuristic applies (the output is not
3-dimensional, or neither the middle nor the last axis equals the 37-symbol
alphabet size), `decodeOcrOutput` proceeds with the default slot count 9
and the 37-class alphabet, slots-first, and still returns a confidence
(`isSome`) rather than failing. -/
theorem decodeOcrOutput_shape_fallback (data : ℕ → ℝ) (dims : List ℕ)
    (hm : ¬(dims.length = 3 ∧ (dims.getD 2 0 = OCR_ALPHABET.length ∨
      dims.getD 1 0 = OCR_ALPHABET.length))) :
    ocrShape dims = (OCR_INPUT.maxSlots, OcrLayout.slotsFirst) ∧
    OCR_INPUT.maxSlots = 9 ∧
    OCR_ALPHABET.length = 37 ∧
    (decodeOcrOutput data dims).confidence.isSome = true := by
  have hshape : ocrShape dims = (OCR_INPUT.maxSlots, OcrLayout.slotsFirst) := by
    unfold ocrShape
    by_cases h3 : dims.length = 3
    · have hboth := not_or.mp fun hor => hm ⟨h3, hor⟩
      rw [if_pos h3, if_neg hboth.1, if_neg hboth.2]
    · rw [if_neg h3]
  refine ⟨hshape, rfl, OCR_ALPHABET_length, ?_⟩
  show (decodeOcrOutput data dims).confidence.isSome = true
  unfold decodeOcrOutput
  rw [hshape]
  simp [OCR_INPUT]

/-- C9 witness: the fallback theorem applied to a 2-dimensional output
shape. -/
theorem decodeOcrOutput_shape_fallback_witness :
    (¬(([1, 9] : List ℕ).length = 3 ∧
      (([1, 9] : List ℕ).getD 2 0 = OCR_ALPHABET.length ∨
        ([1, 9] : List ℕ).getD 1 0 = OCR_ALPHABET.length))) ∧
    ocrShape [1, 9] = (OCR_INPUT.maxSlots, OcrLayout.slotsFirst) ∧
    (decodeOcrOutput (fun _ => (0 : ℝ)) [1, 9]).confidence.isSome = true :=
  ⟨by decide,
   (decodeOcrOutput_shape_fallback (fun _ => 0) [1, 9] (by decide)).1,
   (decodeOcrOutput_shape_fallback (fun _ => 0) [1, 9] (by decide)).2.2.2⟩

/-- C10 counterexample: a late OCR completion after the timeout has fired is
not ignored — it is processed and reported: the final status is `success`
(not the timeout error) and the detected plate is set. -/
theorem scan_late_result_counterexample :
    (runScan initialScanState
        [ScanEvent.startScan, ScanEvent.timeoutFires,
          ScanEvent.ocrCompletes ("LM22XPT")]).ocrStatus =
      OcrStatus.success ∧
    (runScan initialScanState
        [ScanEvent.startScan, ScanEvent.timeoutFires,
          ScanEvent.ocrCompletes ("LM22XPT")]).detectedPlate =
      some ("LM22XPT") ∧
    (runScan initialScanState
        [ScanEvent.startScan, ScanEvent.timeoutFires,
          ScanEvent.ocrCompletes ("LM22XPT")]).ocrStatus ≠
      OcrStatus.error := by
  refine ⟨?_, ?_, ?_⟩ <;> decide

/-- C10 amended: a detection attempt still pending when the 15000 ms timer
fires is reported as the scan-timeout error ("Scan timed out. Please try
again."), not left pending; however, a late-completing attempt's result is
afterwards still processed and reported (status `success`, plate recorded),
overwriting the timeout error, rather than being ignored. -/
theorem scanTimeout_reported (s : ScanState) (p : String)
    (hpend : s.timeoutPending = true) (hp : p ≠ "") :
    SCAN_TIMEOUT_MS = 15000 ∧
    (scanStep s ScanEvent.startScan).timeoutPending = true ∧
    (scanStep s ScanEvent.timeoutFires).ocrStatus = OcrStatus.error ∧
    (scanStep s ScanEvent.timeoutFires).ocrError = some scanTimeoutMessage ∧
    (scanStep (scanStep s ScanEvent.timeoutFires)
        (ScanEvent.ocrCompletes p)).ocrStatus = OcrStatus.success ∧
    (scanStep (scanStep s ScanEvent.timeoutFires)
        (ScanEvent.ocrCompletes p)).detectedPlate = some p := by
  refine ⟨rfl, rfl, ?_, ?_, ?_, ?_⟩ <;> simp [scanStep, hpend, hp]

/-- C10 witness: the amended theorem applied to the state reached after
arming the scan, with the late plate `"LM22XPT"`. -/
theorem scanTimeout_reported_witness :
    ((scanStep initialScanState ScanEvent.startScan).timeoutPending = true ∧
      ("LM22XPT" : String) ≠ "") ∧
    (scanStep (scanStep initialScanState ScanEvent.startScan)
        ScanEvent.timeoutFires).ocrStatus = OcrStatus.error ∧
    (scanStep (scanStep (scanStep initialScanState ScanEvent.startScan)
        ScanEvent.timeoutFires)
        (ScanEvent.ocrCompletes ("LM22XPT"))).ocrStatus = OcrStatus.success :=
  ⟨⟨rfl, by decide⟩,
   (scanTimeout_reported (scanStep initialScanState ScanEvent.startScan)
      ("LM22XPT") rfl (by decide)).2.2.1,
   (scanTimeout_reported (scanStep initialScanState ScanEvent.startScan)
      ("LM22XPT") rfl (by decide)).2.2.2.2.1⟩

end CarScan
